import Mathlib

/-!
Verification of the caption-generation endpoints of `fyp-captions`.

The repository contains several near-duplicate serverless handlers:

* `api/generate-captions.js`, first variant ("Caption Forge", referred to
  below as `v1`): `safeParseJSON`, `dedupeTags`, slicing of captions to 5
  and hashtags to 16, combined-caption synthesis with a space separator,
  and a retry with a fallback model when the configured primary model
  differs from the hard-coded fallback model.
* `api/generate-captions.js`, second variant ("Caption Catalyst", `v2`):
  clamping of `count`/`hashCount`, `asArr`, `slug`, `quickHashtags`,
  `fallbackGenerate`, and a fallback path on upstream failure.
* `api/generate-captions-edge.js` (`edge`): clamping with a wider caption
  range and a structured 500 error body on upstream failure.
* `api/generate.js` (`rescue` variant): `rescueJSON`.

Strings are modelled as lists of characters (`Str`), JavaScript values
produced by `JSON.parse` as the inductive `JSVal`, and `Math.random()` as
an ambient stream `rs : Nat -> Rat` of draws together with an index that
the modelled code threads through each call, mirroring the order in which
the JavaScript evaluates `Math.random()`.
-/

/-- Strings, modelled as lists of characters. -/
abbrev Str := List Char

/-- JavaScript whitespace (the ASCII part of the regex class `\s`). -/
def isWsJs (c : Char) : Bool :=
  c = ' ' || c = '\t' || c = '\n' || c = '\r' || c = '\x0b' || c = '\x0c'

/-- JSON whitespace accepted by `JSON.parse` between tokens. -/
def isWsJson (c : Char) : Bool :=
  c = ' ' || c = '\t' || c = '\n' || c = '\r'

/-- `String.prototype.trim`: remove whitespace from both ends. -/
def jsTrim (l : Str) : Str :=
  ((l.dropWhile isWsJs).reverse.dropWhile isWsJs).reverse

/-- `String.prototype.toLowerCase`, restricted to the ASCII range used here. -/
def toLowerStr (l : Str) : Str := l.map Char.toLower

/-- One step of `replace(/\s+/g, ' ')`: the flag records whether the
previous character was part of a whitespace run already emitted as `' '`. -/
def collapseAux : Bool → Str → Str
  | _, [] => []
  | prevWs, c :: cs =>
    if isWsJs c then
      if prevWs then collapseAux true cs else ' ' :: collapseAux true cs
    else c :: collapseAux false cs

/-- `replace(/\s+/g, ' ')`: collapse each whitespace run to one space. -/
def collapseWs (l : Str) : Str := collapseAux false l

/-- `Array.prototype.join(" ")` on an array of strings. -/
def joinSpace : List Str → Str
  | [] => []
  | [x] => x
  | x :: xs => x ++ ' ' :: joinSpace xs

/-- Lowercase ASCII letter or digit. -/
def isLowerAlnum (c : Char) : Bool :=
  ('a' ≤ c && c ≤ 'z') || ('0' ≤ c && c ≤ '9')

/-- JavaScript `x || d` on strings: the empty string is falsy. -/
def jsOr (s d : Str) : Str := if s = [] then d else s

section JsonModel

/-- The result of `JSON.parse`, restricted to JSON-expressible values. -/
inductive JSVal where
  | jnull : JSVal
  | jbool : Bool → JSVal
  | jnum : ℚ → JSVal
  | jstr : Str → JSVal
  | jarr : List JSVal → JSVal
  | jobj : List (Str × JSVal) → JSVal

/-- JavaScript truthiness of a parsed JSON value. -/
def jsTruthy : JSVal → Bool
  | .jnull => false
  | .jbool b => b
  | .jnum q => q ≠ 0
  | .jstr s => s ≠ []
  | .jarr _ => true
  | .jobj _ => true

/-- `v && typeof v === "object"`: non-null objects and arrays. -/
def jsObjLike : JSVal → Bool
  | .jarr _ => true
  | .jobj _ => true
  | _ => false

/-- Property access `v[name]` on a parse result; on duplicate keys
`JSON.parse` keeps the last occurrence. -/
def jsGet (v : JSVal) (name : Str) : Option JSVal :=
  match v with
  | .jobj fs => ((fs.filter (fun p => p.1 = name)).getLast?).map (fun p => p.2)
  | _ => none

/-- Decimal digit value of a character, if any. -/
def digitVal (c : Char) : Option Nat :=
  if '0' ≤ c && c ≤ '9' then some (c.toNat - '0'.toNat) else none

/-- Parse a run of decimal digits, returning digits read and the rest. -/
def readDigits : Str → List Nat × Str
  | [] => ([], [])
  | c :: cs =>
    match digitVal c with
    | some d => let (ds, r) := readDigits cs; (d :: ds, r)
    | none => ([], c :: cs)

/-- Natural number denoted by a digit list (most significant first). -/
def digitsToNat (ds : List Nat) : Nat := ds.foldl (fun a d => a * 10 + d) 0

/-- Parse the body of a JSON string literal after the opening quote.
Unicode `\uXXXX` escapes are outside the model; the simple escapes of the
JSON grammar are handled. -/
def readStringLit : Nat → Str → Option (Str × Str)
  | 0, _ => none
  | _, [] => none
  | fuel + 1, c :: cs =>
    if c = '"' then some ([], cs)
    else if c = '\\' then
      match cs with
      | [] => none
      | e :: cs' =>
        let ec : Option Char :=
          if e = '"' then some '"'
          else if e = '\\' then some '\\'
          else if e = '/' then some '/'
          else if e = 'n' then some '\n'
          else if e = 't' then some '\t'
          else if e = 'r' then some '\r'
          else if e = 'b' then some '\x08'
          else if e = 'f' then some '\x0c'
          else none
        match ec with
        | some ch =>
          match readStringLit fuel cs' with
          | some (s, r) => some (ch :: s, r)
          | none => none
        | none => none
    else
      match readStringLit fuel cs with
      | some (s, r) => some (c :: s, r)
      | none => none

/-- Parse a JSON number token (integer part, optional fraction, optional
exponent), mirroring the grammar `JSON.parse` accepts. -/
def readNumber (l : Str) : Option (ℚ × Str) :=
  let (neg, l1) : Bool × Str :=
    match l with
    | '-' :: r => (true, r)
    | _ => (false, l)
  let intPart : Option (Nat × Str) :=
    match l1 with
    | '0' :: r =>
      -- a leading zero must stand alone
      match r with
      | c :: _ => if (digitVal c).isSome then none else some (0, r)
      | [] => some (0, [])
    | _ =>
      let (ds, r) := readDigits l1
      if ds = [] then none else some (digitsToNat ds, r)
  match intPart with
  | none => none
  | some (ip, l2) =>
    let (frac, l3) : ℚ × Str :=
      match l2 with
      | '.' :: r =>
        let (ds, r') := readDigits r
        ((digitsToNat ds : ℚ) / ((10 : ℚ) ^ ds.length), r')
      | _ => (0, l2)
    let fracOk : Bool :=
      match l2 with
      | '.' :: r => ((readDigits r).1 ≠ [])
      | _ => true
    let (expo, l4) : Option ℤ × Str :=
      match l3 with
      | e :: r =>
        if e = 'e' || e = 'E' then
          let (esign, r1) : Bool × Str :=
            match r with
            | '+' :: rr => (false, rr)
            | '-' :: rr => (true, rr)
            | _ => (false, r)
          let (ds, r2) := readDigits r1
          if ds = [] then (none, l3)
          else (some (if esign then -(digitsToNat ds : ℤ) else (digitsToNat ds : ℤ)), r2)
        else (some 0, l3)
      | [] => (some 0, l3)
    match expo, fracOk with
    | some ex, true =>
      let mag : ℚ := ((ip : ℚ) + frac) * (10 : ℚ) ^ ex
      some (if neg then -mag else mag, l4)
    | _, _ => none

mutual

/-- Fuel-indexed parser for a JSON value; whitespace before the value is
the caller's concern, whitespace after it is left in the remainder. -/
def parseVal : Nat → Str → Option (JSVal × Str)
  | 0, _ => none
  | fuel + 1, l =>
    match l with
    | [] => none
    | 'n' :: 'u' :: 'l' :: 'l' :: r => some (.jnull, r)
    | 't' :: 'r' :: 'u' :: 'e' :: r => some (.jbool true, r)
    | 'f' :: 'a' :: 'l' :: 's' :: 'e' :: r => some (.jbool false, r)
    | '"' :: r =>
      match readStringLit (r.length + 1) r with
      | some (s, r') => some (.jstr s, r')
      | none => none
    | '[' :: r =>
      let r1 := r.dropWhile isWsJson
      match r1 with
      | ']' :: r2 => some (.jarr [], r2)
      | _ =>
        match parseElems fuel r1 with
        | some (xs, r2) => some (.jarr xs, r2)
        | none => none
    | '{' :: r =>
      let r1 := r.dropWhile isWsJson
      match r1 with
      | '}' :: r2 => some (.jobj [], r2)
      | _ =>
        match parseMembers fuel r1 with
        | some (fs, r2) => some (.jobj fs, r2)
        | none => none
    | _ => readNumber l |>.map (fun (q, r) => (.jnum q, r))

/-- Parse one or more comma-separated array elements and the closing `]`. -/
def parseElems : Nat → Str → Option (List JSVal × Str)
  | 0, _ => none
  | fuel + 1, l =>
    match parseVal fuel l with
    | none => none
    | some (v, r) =>
      let r1 := r.dropWhile isWsJson
      match r1 with
      | ',' :: r2 =>
        match parseElems fuel (r2.dropWhile isWsJson) with
        | some (xs, r3) => some (v :: xs, r3)
        | none => none
      | ']' :: r2 => some ([v], r2)
      | _ => none

/-- Parse one or more `"key": value` members and the closing brace. -/
def parseMembers : Nat → Str → Option (List (Str × JSVal) × Str)
  | 0, _ => none
  | fuel + 1, l =>
    match l with
    | '"' :: r =>
      match readStringLit (r.length + 1) r with
      | none => none
      | some (key, r1) =>
        match r1.dropWhile isWsJson with
        | ':' :: r2 =>
          match parseVal fuel (r2.dropWhile isWsJson) with
          | none => none
          | some (v, r3) =>
            match r3.dropWhile isWsJson with
            | ',' :: r4 =>
              match parseMembers fuel (r4.dropWhile isWsJson) with
              | some (fs, r5) => some ((key, v) :: fs, r5)
              | none => none
            | '}' :: r4 => some ([(key, v)], r4)
            | _ => none
        | _ => none
    | _ => none

end

/-- `JSON.parse`: parse the whole string, allowing surrounding whitespace
and rejecting trailing garbage. `none` models a thrown `SyntaxError`.
The fuel `2 * length + 2` dominates the recursion depth, since at least
one character is consumed for every two nested calls. -/
def jsonParse (s : Str) : Option JSVal :=
  match parseVal (2 * s.length + 2) (s.dropWhile isWsJson) with
  | some (v, rest) => if rest.dropWhile isWsJson = [] then some v else none
  | none => none

end JsonModel

section V1

/-!
`api/generate-captions.js`, first variant ("Caption Forge").
-/

/-- The regex match `s.match(/\{[\s\S]*\}$/)` of `safeParseJSON`: it
succeeds exactly when the string ends with a closing brace and contains an
opening one, and then spans from the first opening brace to the end. -/
def matchBraceToEnd (s : Str) : Option Str :=
  if s.getLast? = some '}' && s.contains '{' then
    some (s.dropWhile (fun c => c ≠ '{'))
  else none

/-- The string `safeParseJSON` hands to `JSON.parse`: the brace match if
present, otherwise the raw input. -/
def extractedInput (s : Str) : Str := (matchBraceToEnd s).getD s

/-- `safeParseJSON` of the first variant: parse the extracted block and
return it when it is a non-null object, `{}` on any failure. -/
def safeParseJSON (s : Str) : JSVal :=
  match jsonParse (extractedInput s) with
  | some v => if jsObjLike v then v else .jobj []
  | none => .jobj []

/-- Remove a single leading `#` (`replace(/^#/, '')`). -/
def stripLeadHash : Str → Str
  | '#' :: r => r
  | l => l

/-- The canonical form `(t || '').toString().trim().toLowerCase().replace(/^#/, '')`
that `dedupeTags` computes for each entry. -/
def canonTag (t : Str) : Str := stripLeadHash (toLowerStr (jsTrim t))

/-- The loop of `dedupeTags`, carrying the `seen` set. -/
def dedupeTagsAux : List Str → List Str → List Str
  | [], _ => []
  | t :: ts, seen =>
    let v := canonTag t
    if v = [] || v ∈ seen then dedupeTagsAux ts seen
    else v :: dedupeTagsAux ts (seen ++ [v])

/-- `dedupeTags` of the first variant. -/
def dedupeTags (l : List Str) : List Str := dedupeTagsAux l []

/-- First-variant caption curation: `parsed.captions.slice(0, 5)` when the
field is an array, `[]` otherwise. -/
def v1CurateCaps (parsed : JSVal) : List JSVal :=
  match jsGet parsed ("captions".data) with
  | some (.jarr xs) => xs.take 5
  | _ => []

/-- First-variant hashtag curation: `dedupeTags(parsed.hashtags).slice(0, 16)`.
`dedupeTags` coerces entries with `toString`; the model keeps the string
entries of the array, the only case the declared schema produces. -/
def v1CurateTags (tags : List Str) : List Str := (dedupeTags tags).take 16

/-- First-variant `combined` computation: trim the parsed field and, when
it is empty, synthesize `body + tagLine` where `tagLine` prefixes every
hashtag with `#` and joins with single spaces after a leading space. -/
def v1Combined (parsedCombined : Option Str) (captions : List Str) (hashtags : List Str) : Str :=
  let combined := jsTrim (parsedCombined.getD [])
  if combined = [] then
    let body := jsOr (captions.headD []) ("Here’s the gist.".data)
    let tagLine := if hashtags = [] then [] else ' ' :: joinSpace (hashtags.map (fun t => '#' :: t))
    body ++ tagLine
  else combined

/-- The hard-coded fallback model name `MODEL_FALLBACK`. -/
def MODEL_FALLBACK : Str := "gpt-4o-mini".data

/-- `process.env.OPENAI_MODEL || 'gpt-4o-mini'`. -/
def modelPrimary (env : Option Str) : Str :=
  match env with
  | some m => jsOr m MODEL_FALLBACK
  | none => MODEL_FALLBACK

/-- Outcome of one `callOpenAI` invocation. -/
inductive CallResult where
  | ok : Str → CallResult
  | err : Str → CallResult
deriving DecidableEq

/-- The first variant's upstream call logic: one call, and on failure a
second call if and only if the configured primary model differs from the
fallback model; returns the result together with the number of upstream
calls made. -/
def v1CallUpstream (env : Option Str) (first second : CallResult) : CallResult × Nat :=
  match first with
  | .ok c => (.ok c, 1)
  | .err e => if modelPrimary env ≠ MODEL_FALLBACK then (second, 2) else (.err e, 1)

end V1

section RescueVariant

/-!
`api/generate.js`: `rescueJSON`.
-/

/-- Check that a string begins with optional whitespace followed by three
backticks, as required after the closing brace by the second regex of
`rescueJSON`. -/
def fenceAfter (l : Str) : Bool :=
  (l.dropWhile isWsJs).take 3 = "```".data

/-- The regex match `s.match(/\{[\s\S]*\}\s*```/)`: from the first opening
brace, greedily to the last closing brace that is followed by optional
whitespace and a code fence, including that fence in the match. -/
def fenceMatch (s : Str) : Option Str :=
  let t := s.dropWhile (fun c => c ≠ '{')
  match (List.range t.length).reverse.find?
      (fun j => t.get? j = some '}' && fenceAfter (t.drop (j + 1))) with
  | some j =>
    let ws := (t.drop (j + 1)).takeWhile isWsJs
    some (t.take (j + 1) ++ ws ++ "```".data)
  | none => none

/-- Fuel-indexed worker for `replace(/```json|```/g, '')`: delete every
fence marker, trying the longer alternative first at each position,
scanning left to right. Each step consumes at least one character, so
fuel equal to the length never runs out. -/
def stripFencesF : Nat → Str → Str
  | 0, _ => []
  | _ + 1, [] => []
  | fuel + 1, c :: cs =>
    if (c :: cs).take 7 = "```json".data then stripFencesF fuel ((c :: cs).drop 7)
    else if (c :: cs).take 3 = "```".data then stripFencesF fuel ((c :: cs).drop 3)
    else c :: stripFencesF fuel cs

/-- `replace(/```json|```/g, '')`. -/
def stripFences (l : Str) : Str := stripFencesF l.length l

/-- `rescueJSON` of the `generate.js` variant: try the end-anchored brace
match, then the fence-terminated match; strip fence markers from a match
before parsing; `none` models the `null` returned when parsing fails. -/
def rescueJSON (s : Str) : Option JSVal :=
  let m := (matchBraceToEnd s).orElse (fun _ => fenceMatch s)
  let input := match m with
    | some x => stripFences x
    | none => s
  jsonParse input

end RescueVariant

section V2Edge

/-!
`api/generate-captions.js`, second variant ("Caption Catalyst"), and
`api/generate-captions-edge.js`.
-/

/-- `Number(x) || d`: `none` models a `NaN` coercion (non-numeric input),
and a zero value is falsy and also replaced by the default. -/
def jsNumOr (d : ℚ) : Option ℚ → ℚ
  | none => d
  | some x => if x = 0 then d else x

/-- `Math.max(2, Math.min(6, Number(count) || 6))` of the second variant. -/
def v2ClampN (c : Option ℚ) : ℚ := max 2 (min 6 (jsNumOr 6 c))

/-- `Math.max(6, Math.min(12, Number(hashCount) || 8))` of the second variant. -/
def v2ClampHN (h : Option ℚ) : ℚ := max 6 (min 12 (jsNumOr 8 h))

/-- `Math.max(2, Math.min(8, Number(count) || 6))` of the edge variant. -/
def edgeClampN (c : Option ℚ) : ℚ := max 2 (min 8 (jsNumOr 6 c))

/-- `Math.max(6, Math.min(12, Number(hashCount) || 8))` of the edge variant. -/
def edgeClampHN (h : Option ℚ) : ℚ := max 6 (min 12 (jsNumOr 8 h))

/-- A request-body field that is expected to be an array: it may arrive as
an array of strings, a single string, or be absent. (Non-string scalars
are outside the model.) -/
inductive JSField where
  | arr : List Str → JSField
  | str : Str → JSField
  | undef : JSField

/-- `asArr = v => Array.isArray(v) ? v : (v ? [v] : [])` of the second
variant: a truthy non-array is wrapped in a singleton array. -/
def asArr : JSField → List Str
  | .arr xs => xs
  | .str s => if s = [] then [] else [s]
  | .undef => []

/-- The edge variant's array coercion `Array.isArray(v) ? v : []`: a
non-array input is discarded. -/
def edgeArr : JSField → List Str
  | .arr xs => xs
  | _ => []

/-- `replace(/&/g, "and")` acting on one character. -/
def ampToAnd (c : Char) : Str := if c = '&' then "and".data else [c]

/-- Characters kept by `replace(/[^a-z0-9 ]/g, "")`. -/
def keepAlnumSpace (c : Char) : Bool := isLowerAlnum c || c = ' '

/-- `slug`: lowercase, `&` to `and`, drop everything outside
`[a-z0-9 ]`, then delete all remaining whitespace. -/
def slug (s : Str) : Str :=
  (((toLowerStr s).flatMap ampToAnd).filter keepAlnumSpace).filter (fun c => !isWsJs c)

/-- A regex word character (`\w`). -/
def isWordChar (c : Char) : Bool :=
  ('a' ≤ c && c ≤ 'z') || ('A' ≤ c && c ≤ 'Z') || ('0' ≤ c && c ≤ '9') || c = '_'

/-- Worker for `split(/\W+/)`, accumulating the current piece reversed. -/
def splitNWAux : Str → Str → List Str
  | [], acc => [acc.reverse]
  | c :: cs, acc =>
    if isWordChar c then splitNWAux cs (c :: acc)
    else acc.reverse :: splitNWAux (cs.dropWhile (fun x => !isWordChar x)) []
termination_by l _ => l.length
decreasing_by
  · simp only [List.length_cons]; omega
  · have := (List.dropWhile_suffix (l := cs) (fun x => !isWordChar x)).length_le
    simp only [List.length_cons]; omega

/-- `String(s).split(/\W+/)`: split on runs of non-word characters,
keeping the empty leading/trailing pieces JavaScript produces. -/
def splitNW (l : Str) : List Str := splitNWAux l []

/-- `Math.floor(r * n)` as an array index; `Math.random()` guarantees
`0 ≤ r < 1`, so the negative case (clamped to `0` here) is unreachable. -/
def pickIdx (r : ℚ) (n : Nat) : Nat := (Int.floor (r * n)).toNat

/-- Template interpolation `${x}` of a possibly-undefined value. -/
def optTpl (o : Option Str) : Str := o.getD ("undefined".data)

/-- `pool.splice(i, 1)[0]` together with the mutated pool. -/
def splice1 (pool : List Str) (i : Nat) : Option Str × List Str :=
  if h : i < pool.length then (some (pool.get ⟨i, h⟩), pool.eraseIdx i) else (none, pool)

/-- `seen.add(x)` on an insertion-ordered set. -/
def setAdd (s : List Str) (x : Str) : List Str := if x ∈ s then s else s ++ [x]

/-- `new Set(l)` as an insertion-ordered duplicate-free list. -/
def setOfList (l : List Str) : List Str := l.foldl setAdd []

/-- `Math.ceil` of a rational count. -/
def ratCeilToNat (q : ℚ) : Nat := (Int.ceil q).toNat

/-- The `take(pool, n)` helper of `quickHashtags`: draw `n` elements at
random positions without replacement, stopping early on an empty pool.
The random stream `rs` is indexed by the counter `k`. -/
def takeRand (rs : Nat → ℚ) : List Str → Nat → Nat → List (Option Str) × Nat
  | _, 0, k => ([], k)
  | pool, n + 1, k =>
    if pool = [] then ([], k)
    else
      let (x, pool') := splice1 pool (pickIdx (rs k) pool.length)
      let (rest, k') := takeRand rs pool' n (k + 1)
      (x :: rest, k')

/-- The `terms.forEach` augmentation loop of `quickHashtags`: for each
term, one draw decides whether to add a derived tag and a second draw
picks its suffix. -/
def augmentNiche (rs : Nat → ℚ) : List Str → List Str → Nat → List Str × Nat
  | [], niche, k => (niche, k)
  | t :: ts, niche, k =>
    if t = [] then augmentNiche rs ts niche k
    else if rs k < (35 : ℚ) / 100 then
      let sfx := if rs (k + 1) < (1 : ℚ) / 2 then "tips".data else "hack".data
      augmentNiche rs ts (setAdd niche (t ++ sfx)) (k + 2)
    else augmentNiche rs ts niche (k + 1)

/-- The module constant `BROAD`. -/
def BROAD : List Str := ["fyp".data, "tiktokshop".data, "tiktokmademebuyit".data, "viral".data]

/-- The module constant `MID`. -/
def MID : List Str := ["review".data, "beforeafter".data, "unboxing".data, "asmr".data]

/-- `CAT.skincare`; the other pools of `CAT` are unreachable from
`categoryGuess`, which only ever selects `"skincare"`, `"kitchen"` or none. -/
def CAT_skincare : List Str := ["skincare".data, "barrierrepair".data, "dermtips".data]

/-- `CAT.kitchen`. -/
def CAT_kitchen : List Str := ["kitchen".data, "mealprep".data, "kitchenhacks".data, "homecooking".data]

/-- The deduplicating output loop of `quickHashtags`: skip empty or seen
slugs, prefix `#`, and stop once `HN` tags have been produced; `cnt` is
the number of tags already emitted. -/
def uniqTags (HN : Nat) : Nat → List (Option Str) → List Str → List Str
  | _, [], _ => []
  | cnt, h :: t, seen =>
    let w := slug (h.getD [])
    if w = [] || w ∈ seen then uniqTags HN cnt t seen
    else ('#' :: w) :: (if HN ≤ cnt + 1 then [] else uniqTags HN (cnt + 1) t (seen ++ [w]))

/-- `quickHashtags` of the second variant. -/
def quickHashtags (rs : Nat → ℚ) (product audience : Str) (benefits pains : JSField)
    (HN : Nat) (k : Nat) : List Str × Nat :=
  let terms := ((splitNW product ++ splitNW audience ++ asArr benefits ++ asArr pains).map slug).filter
    (fun x => !x.isEmpty && decide (2 < x.length) && decide (x.length < 28))
  let (niche, k1) := augmentNiche rs terms (setOfList terms) k
  let categoryGuess : Str :=
    if ("skin".data ∈ terms) || ("serum".data ∈ terms) then "skincare".data
    else if ("kitchen".data ∈ terms) || ("cook".data ∈ terms) then "kitchen".data
    else []
  let cat : List Str :=
    if categoryGuess = "skincare".data then CAT_skincare
    else if categoryGuess = "kitchen".data then CAT_kitchen
    else []
  let (p1, k2) := takeRand rs BROAD (ratCeilToNat ((HN : ℚ) * (3 / 10))) k1
  let (p2, k3) := takeRand rs MID (ratCeilToNat ((HN : ℚ) * (25 / 100))) k2
  let (p3, k4) := takeRand rs cat (ratCeilToNat ((HN : ℚ) * (2 / 10))) k3
  let (p4, k5) := takeRand rs niche HN k4
  ((uniqTags HN 0 (p1 ++ p2 ++ p3 ++ p4) []).take HN, k5)

/-- The hook templates of `fallbackGenerate`. -/
def fallbackHooks (benefit pain : Str) : List Str :=
  [ "ok real talk — ".data ++ benefit ++ ".".data,
    "not me finally fixing ".data ++ pain ++ "…".data,
    benefit ++ " with zero fuss.".data,
    "if ".data ++ pain ++ " is your life, watch this.".data,
    "this is the shortcut to ".data ++ benefit ++ ".".data ]

/-- The CTA templates of `fallbackGenerate`. -/
def fallbackCtas : List Str :=
  [ "tap for the receipts →".data,
    "save this for later.".data,
    "want the steps? tap through.".data,
    "sharing in case you need it too.".data ]

/-- The middle segment of each fallback caption. -/
def fallbackMid (product : Str) : Str :=
  if product = [] then "this just helped me get there.".data
  else product ++ " just helped me get there.".data

/-- `pick(arr)`: one random draw indexing into the array. -/
def jsPick (rs : Nat → ℚ) (arr : List Str) (k : Nat) : Option Str × Nat :=
  (arr.get? (pickIdx (rs k) arr.length), k + 1)

/-- `Array.from({length: N}, ...)` building the fallback captions; each
caption consumes a hook draw then a CTA draw and is whitespace-collapsed
and trimmed. -/
def mkCaps (rs : Nat → ℚ) (hooks ctas : List Str) (mid : Str) : Nat → Nat → List Str × Nat
  | 0, k => ([], k)
  | n + 1, k =>
    let (h, k1) := jsPick rs hooks k
    let (c, k2) := jsPick rs ctas k1
    let cap := jsTrim (collapseWs (optTpl h ++ ' ' :: mid ++ ' ' :: optTpl c))
    let (rest, k3) := mkCaps rs hooks ctas mid n k2
    (cap :: rest, k3)

/-- The object returned by `fallbackGenerate`. -/
structure FbOut where
  combined : Str
  captions : List Str
  hashtags : List Str

/-- `fallbackGenerate` of the second variant. -/
def fallbackGenerate (rs : Nat → ℚ) (product audience : Str) (benefits pains : JSField)
    (N HN : Nat) (k : Nat) : FbOut × Nat :=
  let pain := jsOr ((asArr pains).headD []) ("doing this the hard way".data)
  let benefit := jsOr ((asArr benefits).headD []) ("better results with less effort".data)
  let (caps, k1) := mkCaps rs (fallbackHooks benefit pain) fallbackCtas (fallbackMid product) N k
  let (tags, k2) := quickHashtags rs product audience benefits pains HN k1
  ({ combined := optTpl caps.head? ++ '\n' :: joinSpace tags,
     captions := caps, hashtags := tags }, k2)

/-- Outcome of the upstream `fetch` as seen by a handler: a completion
text, a non-success HTTP status (with its body text), or a thrown error
(network failure, or the cancellation timer firing). -/
inductive UpstreamOutcome where
  | ok : Str → UpstreamOutcome
  | httpError : Str → UpstreamOutcome
  | netFail : Str → UpstreamOutcome

/-- `captions.filter(Boolean)` followed by `slice(0, bound)` when the
bound is exceeded — the curation applied to both arrays by the second and
edge variants. -/
def v2CurateList (bound : Nat) (xs : List JSVal) : List JSVal :=
  let c := xs.filter jsTruthy
  if bound < c.length then c.take bound else c

/-- String view of a schema-typed array element; elements of other JSON
types (which the declared schema does not produce) are outside the model. -/
def jsStrOfVal : JSVal → Str
  | .jstr s => s
  | _ => []

/-- The `combined` computation shared by the second and edge variants:
keep a trimmed string field, otherwise synthesize from the first caption
and the space-joined, trimmed hashtag line — with no newline when the
line is empty. -/
def v2Combined (parsedCombined : Option JSVal) (captions hashtags : List Str) : Str :=
  let combined : Str :=
    match parsedCombined with
    | some (.jstr s) => jsTrim s
    | _ => []
  if combined = [] && !captions.isEmpty then
    let line := jsTrim (joinSpace hashtags)
    if line = [] then captions.headD []
    else captions.headD [] ++ '\n' :: line
  else combined

/-- Response body of the second variant: the `combined`/`captions`/
`hashtags` payload plus the `from` tag. -/
inductive V2Body where
  | payload : Str → List JSVal → List JSVal → Str → V2Body

/-- Spreading a `fallbackGenerate` result into the response body. -/
def fbBody (fb : FbOut) (tag : Str) : V2Body :=
  .payload fb.combined (fb.captions.map .jstr) (fb.hashtags.map .jstr) tag

/-- An HTTP response of the second variant. -/
structure V2Resp where
  status : Nat
  body : V2Body

/-- The second variant's handler from the point the upstream call
resolves: fallback (HTTP 200) on a non-success status, on a thrown
error/timeout, and on an entirely empty parse; curation otherwise. -/
def v2HandleOutcome (rs : Nat → ℚ) (product audience : Str) (benefits pains : JSField)
    (N HN : Nat) (k : Nat) : UpstreamOutcome → V2Resp
  | .httpError _ =>
    { status := 200,
      body := fbBody (fallbackGenerate rs product audience benefits pains N HN k).1 ("fallback".data) }
  | .netFail _ =>
    { status := 200,
      body := fbBody (fallbackGenerate rs product audience benefits pains N HN k).1 ("fallback-timeout".data) }
  | .ok content =>
    let parsed := (jsonParse content).getD (.jobj [])
    let captions := v2CurateList N
      (match jsGet parsed ("captions".data) with | some (.jarr xs) => xs | _ => [])
    let hashtags := v2CurateList HN
      (match jsGet parsed ("hashtags".data) with | some (.jarr xs) => xs | _ => [])
    let combined := v2Combined (jsGet parsed ("combined".data))
      (captions.map jsStrOfVal) (hashtags.map jsStrOfVal)
    if captions.isEmpty && combined = [] then
      { status := 200,
        body := fbBody (fallbackGenerate rs product audience benefits pains N HN k).1 ("fallback".data) }
    else
      { status := 200, body := .payload combined captions hashtags ("openai-edge".data) }

/-- Response body of the edge variant: a success payload, or the
structured error object `{ error, detail }`. -/
inductive EdgeBody where
  | success : Str → List JSVal → List JSVal → EdgeBody
  | failure : Str → Str → EdgeBody

/-- An HTTP response of the edge variant. -/
structure EdgeResp where
  status : Nat
  body : EdgeBody

/-- The edge handler from the point the upstream call resolves: it has no
fallback generator, so a non-success status yields a structured HTTP 500
error body, as does a thrown error via the surrounding catch. -/
def edgeHandleOutcome (N HN : Nat) : UpstreamOutcome → EdgeResp
  | .httpError detail =>
    { status := 500, body := .failure ("OpenAI request failed".data) detail }
  | .netFail msg =>
    { status := 500, body := .failure ("Server error".data) msg }
  | .ok content =>
    let parsed := (jsonParse content).getD (.jobj [])
    let captions := v2CurateList N
      (match jsGet parsed ("captions".data) with | some (.jarr xs) => xs | _ => [])
    let hashtags := v2CurateList HN
      (match jsGet parsed ("hashtags".data) with | some (.jarr xs) => xs | _ => [])
    let combined := v2Combined (jsGet parsed ("combined".data))
      (captions.map jsStrOfVal) (hashtags.map jsStrOfVal)
    { status := 200, body := .success combined captions hashtags }

end V2Edge

section Lemmas

/-- A non-matching element survives `dropWhile`. -/
theorem mem_dropWhile_of_mem {p : Char → Bool} {c : Char} :
    ∀ {l : Str}, c ∈ l → p c = false → c ∈ l.dropWhile p
  | [], h, _ => absurd h (List.not_mem_nil c)
  | x :: xs, h, hpc => by
    by_cases hx : p x = true
    · rw [List.dropWhile_cons_of_pos hx]
      rcases List.mem_cons.mp h with rfl | hmem
      · rw [hx] at hpc; exact absurd hpc (by simp)
      · exact mem_dropWhile_of_mem hmem hpc
    · rw [List.dropWhile_cons_of_neg hx]
      exact h

/-- Unfolding `collapseAux` at a whitespace head. -/
theorem collapseAux_cons_ws {x : Char} (b : Bool) (xs : Str) (hx : isWsJs x = true) :
    collapseAux b (x :: xs) = (if b then [] else [' ']) ++ collapseAux true xs := by
  cases b <;> simp [collapseAux, hx]

/-- Unfolding `collapseAux` at a non-whitespace head. -/
theorem collapseAux_cons_not_ws {x : Char} (b : Bool) (xs : Str) (hx : isWsJs x = false) :
    collapseAux b (x :: xs) = x :: collapseAux false xs := by
  cases b <;> simp [collapseAux, hx]

/-- Whitespace collapsing preserves non-whitespace characters. -/
theorem mem_collapseAux {c : Char} (hc : isWsJs c = false) (l : Str) :
    ∀ (b : Bool), c ∈ l → c ∈ collapseAux b l := by
  induction l with
  | nil => intro b h; exact absurd h (List.not_mem_nil c)
  | cons x xs ih =>
    intro b h
    rcases List.mem_cons.mp h with rfl | hmem
    · rw [collapseAux_cons_not_ws b xs hc]
      exact List.mem_cons_self c _
    · by_cases hx : isWsJs x = true
      · rw [collapseAux_cons_ws b xs hx]
        exact List.mem_append_right _ (ih true hmem)
      · rw [collapseAux_cons_not_ws b xs (by simpa using hx)]
        exact List.mem_cons_of_mem _ (ih false hmem)

/-- A string containing a non-whitespace character does not trim to empty. -/
theorem jsTrim_ne_nil_of_mem {l : Str} {c : Char}
    (hm : c ∈ l) (hc : isWsJs c = false) : jsTrim l ≠ [] := by
  have h1 : c ∈ l.dropWhile isWsJs := mem_dropWhile_of_mem hm hc
  have h2 : c ∈ (l.dropWhile isWsJs).reverse := List.mem_reverse.mpr h1
  have h3 : c ∈ (l.dropWhile isWsJs).reverse.dropWhile isWsJs :=
    mem_dropWhile_of_mem h2 hc
  exact List.ne_nil_of_mem (List.mem_reverse.mpr h3)

/-- Every character of a `slug` is a lowercase letter or a digit. -/
theorem slug_lowerAlnum {s : Str} {c : Char} (h : c ∈ slug s) :
    isLowerAlnum c = true := by
  unfold slug at h
  have h1 := List.mem_filter.mp h
  have h2 := List.mem_filter.mp h1.1
  have hkeep : keepAlnumSpace c = true := h2.2
  have hnws : isWsJs c = false := by
    have := h1.2; simpa using this
  unfold keepAlnumSpace at hkeep
  rcases Bool.or_eq_true_iff.mp hkeep with halnum | hspace
  · exact halnum
  · exfalso
    have : c = ' ' := by simpa using hspace
    subst this
    simp [isWsJs] at hnws

end Lemmas

section LoopInvariants

/-- The output loop of `quickHashtags`: every emitted tag is `#` followed
by a nonempty slug of lowercase alphanumerics not previously seen, and the
output has no duplicates. -/
theorem uniqTags_spec (HN : Nat) (picks : List (Option Str)) :
    ∀ (cnt : Nat) (seen : List Str),
      (∀ t ∈ uniqTags HN cnt picks seen,
        ∃ w, t = '#' :: w ∧ w ≠ [] ∧ w ∉ seen ∧ ∀ c ∈ w, isLowerAlnum c = true)
      ∧ (uniqTags HN cnt picks seen).Nodup := by
  induction picks with
  | nil =>
    intro cnt seen
    refine ⟨?_, ?_⟩ <;> simp [uniqTags]
  | cons h t ih =>
    intro cnt seen
    by_cases hskip : slug (h.getD []) = [] ∨ slug (h.getD []) ∈ seen
    · have hrw : uniqTags HN cnt (h :: t) seen = uniqTags HN cnt t seen := by
        simp only [uniqTags]
        rw [if_pos]
        simpa using hskip
      rw [hrw]
      exact ih cnt seen
    · push_neg at hskip
      obtain ⟨hne, hns⟩ := hskip
      have hrw : uniqTags HN cnt (h :: t) seen =
          ('#' :: slug (h.getD [])) ::
            (if HN ≤ cnt + 1 then [] else uniqTags HN (cnt + 1) t (seen ++ [slug (h.getD [])])) := by
        simp only [uniqTags]
        rw [if_neg]
        simp [hne, hns]
      rw [hrw]
      by_cases hstop : HN ≤ cnt + 1
      · rw [if_pos hstop]
        refine ⟨?_, by simp⟩
        intro u hu
        rcases List.mem_cons.mp hu with rfl | hmem
        · exact ⟨slug (h.getD []), rfl, hne, hns, fun c hc => slug_lowerAlnum hc⟩
        · simp at hmem
      · rw [if_neg hstop]
        obtain ⟨ih1, ih2⟩ := ih (cnt + 1) (seen ++ [slug (h.getD [])])
        refine ⟨?_, ?_⟩
        · intro u hu
          rcases List.mem_cons.mp hu with rfl | hmem
          · exact ⟨slug (h.getD []), rfl, hne, hns, fun c hc => slug_lowerAlnum hc⟩
          · obtain ⟨w, hw, hwne, hwns, hwal⟩ := ih1 u hmem
            refine ⟨w, hw, hwne, fun hmem' => hwns (List.mem_append_left _ hmem'), hwal⟩
        · refine List.nodup_cons.mpr ⟨?_, ih2⟩
          intro hmem
          obtain ⟨w, hw, _, hwns, _⟩ := ih1 _ hmem
          have hww : w = slug (h.getD []) := by
            injection hw with _ h2
            exact h2.symm
          exact hwns (List.mem_append_right _ (by simp [hww]))

end LoopInvariants

section MoreInvariants

/-- The loop of `dedupeTags`: every output is the canonical (trimmed,
lowercased, `#`-stripped) form of some input, is nonempty, was not seen
before, and the output has no duplicates. -/
theorem dedupeTagsAux_spec (l : List Str) :
    ∀ (seen : List Str),
      (∀ v ∈ dedupeTagsAux l seen,
        v ∉ seen ∧ v ≠ [] ∧ ∃ t ∈ l, v = canonTag t)
      ∧ (dedupeTagsAux l seen).Nodup := by
  induction l with
  | nil =>
    intro seen
    refine ⟨?_, ?_⟩ <;> simp [dedupeTagsAux]
  | cons t ts ih =>
    intro seen
    by_cases hskip : canonTag t = [] ∨ canonTag t ∈ seen
    · have hrw : dedupeTagsAux (t :: ts) seen = dedupeTagsAux ts seen := by
        simp only [dedupeTagsAux]
        rw [if_pos]
        simpa using hskip
      rw [hrw]
      obtain ⟨ih1, ih2⟩ := ih seen
      refine ⟨?_, ih2⟩
      intro v hv
      obtain ⟨h1, h2, u, hu, h3⟩ := ih1 v hv
      exact ⟨h1, h2, u, List.mem_cons_of_mem _ hu, h3⟩
    · push_neg at hskip
      obtain ⟨hne, hns⟩ := hskip
      have hrw : dedupeTagsAux (t :: ts) seen =
          canonTag t :: dedupeTagsAux ts (seen ++ [canonTag t]) := by
        simp only [dedupeTagsAux]
        rw [if_neg]
        simp [hne, hns]
      rw [hrw]
      obtain ⟨ih1, ih2⟩ := ih (seen ++ [canonTag t])
      refine ⟨?_, ?_⟩
      · intro v hv
        rcases List.mem_cons.mp hv with rfl | hmem
        · exact ⟨hns, hne, t, List.mem_cons_self t ts, rfl⟩
        · obtain ⟨h1, h2, u, hu, h3⟩ := ih1 v hmem
          exact ⟨fun hmem' => h1 (List.mem_append_left _ hmem'), h2,
            u, List.mem_cons_of_mem _ hu, h3⟩
      · refine List.nodup_cons.mpr ⟨?_, ih2⟩
        intro hmem
        obtain ⟨h1, _, _⟩ := ih1 _ hmem
        exact h1 (List.mem_append_right _ (by simp))

/-- `dedupeTags` never lengthens its input. -/
theorem dedupeTagsAux_length_le (l : List Str) :
    ∀ (seen : List Str), (dedupeTagsAux l seen).length ≤ l.length := by
  induction l with
  | nil => intro seen; simp [dedupeTagsAux]
  | cons t ts ih =>
    intro seen
    simp only [dedupeTagsAux]
    by_cases hc : (decide (canonTag t = []) || decide (canonTag t ∈ seen)) = true
    · rw [if_pos hc]
      exact Nat.le_succ_of_le (ih seen)
    · rw [if_neg hc]
      simpa using ih (seen ++ [canonTag t])

/-- The clamped list curation of the second and edge variants respects
both the requested bound and the input length. -/
theorem v2CurateList_length (bound : Nat) (xs : List JSVal) :
    (v2CurateList bound xs).length ≤ bound ∧
    (v2CurateList bound xs).length ≤ xs.length := by
  unfold v2CurateList
  by_cases h : bound < (xs.filter jsTruthy).length
  · rw [if_pos h]
    constructor
    · simp
    · calc (List.take bound (xs.filter jsTruthy)).length
          ≤ bound := by simp
        _ ≤ (xs.filter jsTruthy).length := Nat.le_of_lt h
        _ ≤ xs.length := List.length_filter_le _ _
  · rw [if_neg h]
    push_neg at h
    exact ⟨h, List.length_filter_le _ _⟩

end MoreInvariants

section FallbackLemmas

/-- `Array.from({length: N}, ...)` produces exactly `N` captions. -/
theorem mkCaps_length (rs : Nat → ℚ) (hooks ctas : List Str) (mid : Str) :
    ∀ (n k : Nat), (mkCaps rs hooks ctas mid n k).1.length = n := by
  intro n
  induction n with
  | zero => intro k; simp [mkCaps]
  | succ m ih =>
    intro k
    simp only [mkCaps]
    simpa using ih _

/-- Every fallback caption is nonempty, as long as the middle segment
contains a non-whitespace character. -/
theorem mkCaps_ne_nil (rs : Nat → ℚ) (hooks ctas : List Str) (mid : Str)
    {c : Char} (hmid : c ∈ mid) (hcws : isWsJs c = false) :
    ∀ (n k : Nat), ∀ cap ∈ (mkCaps rs hooks ctas mid n k).1, cap ≠ [] := by
  intro n
  induction n with
  | zero => intro k cap hcap; simp [mkCaps] at hcap
  | succ m ih =>
    intro k cap hcap
    simp only [mkCaps] at hcap
    rcases List.mem_cons.mp hcap with rfl | hmem
    · apply jsTrim_ne_nil_of_mem (c := c) _ hcws
      apply mem_collapseAux hcws
      exact List.mem_append_left _ (List.mem_append_right _ (List.mem_cons_of_mem _ hmid))
    · exact ih _ cap hmem

/-- The middle segment of every fallback caption contains the letter `j`
(from "just helped me get there"). -/
theorem fallbackMid_mem_j (product : Str) : 'j' ∈ fallbackMid product := by
  unfold fallbackMid
  by_cases h : product = []
  · rw [if_pos h]
    decide
  · rw [if_neg h]
    refine List.mem_append_right _ ?_
    decide

/-- The hashtags produced by `quickHashtags`: at most `HN` of them, no
duplicates, and each is `#` followed by a nonempty lowercase
alphanumeric token. -/
theorem quickHashtags_spec (rs : Nat → ℚ) (product audience : Str)
    (benefits pains : JSField) (HN k : Nat) :
    let tags := (quickHashtags rs product audience benefits pains HN k).1
    tags.length ≤ HN ∧ tags.Nodup ∧
      ∀ t ∈ tags, ∃ w, t = '#' :: w ∧ w ≠ [] ∧ ∀ c ∈ w, isLowerAlnum c = true := by
  intro tags
  have htags : ∃ picks, tags = (uniqTags HN 0 picks []).take HN := ⟨_, rfl⟩
  obtain ⟨picks, hp⟩ := htags
  obtain ⟨h1, h2⟩ := uniqTags_spec HN picks 0 []
  refine ⟨?_, ?_, ?_⟩
  · rw [hp]; simp
  · rw [hp]
    exact h2.sublist (List.take_sublist _ _)
  · intro t ht
    rw [hp] at ht
    obtain ⟨w, hw, hwne, _, hwal⟩ := h1 t (List.mem_of_mem_take ht)
    exact ⟨w, hw, hwne, hwal⟩

/-- Specification of `fallbackGenerate`: exactly `N` nonempty captions, a
`combined` string synthesized from the first caption, a newline and the
space-joined tag line, and at most `HN` duplicate-free well-formed
hashtags. -/
theorem fallbackGenerate_spec (rs : Nat → ℚ) (product audience : Str)
    (benefits pains : JSField) (N HN k : Nat) :
    let fb := (fallbackGenerate rs product audience benefits pains N HN k).1
    fb.captions.length = N ∧
    (∀ cap ∈ fb.captions, cap ≠ []) ∧
    fb.combined = optTpl fb.captions.head? ++ '\n' :: joinSpace fb.hashtags ∧
    fb.hashtags.length ≤ HN ∧ fb.hashtags.Nodup ∧
    (∀ t ∈ fb.hashtags, ∃ w, t = '#' :: w ∧ w ≠ [] ∧ ∀ c ∈ w, isLowerAlnum c = true) := by
  intro fb
  have hj := fallbackMid_mem_j product
  have hjws : isWsJs 'j' = false := by decide
  obtain ⟨hq1, hq2, hq3⟩ := quickHashtags_spec rs product audience benefits pains HN
    ((mkCaps rs
      (fallbackHooks
        (jsOr ((asArr benefits).headD []) ("better results with less effort".data))
        (jsOr ((asArr pains).headD []) ("doing this the hard way".data)))
      fallbackCtas (fallbackMid product) N k).2)
  exact ⟨mkCaps_length rs _ _ _ N k,
    fun cap hcap => mkCaps_ne_nil rs _ _ _ hj hjws N k cap hcap,
    rfl, hq1, hq2, hq3⟩

end FallbackLemmas

section JoinTrimLemmas

/-- `dropWhile` skips over a block of matching characters. -/
theorem dropWhile_append_all {p : Char → Bool} :
    ∀ {l1 : Str} (l2 : Str), (∀ c ∈ l1, p c = true) →
      (l1 ++ l2).dropWhile p = l2.dropWhile p
  | [], l2, _ => by simp
  | x :: xs, l2, h => by
    have hx : p x = true := h x (List.mem_cons_self x xs)
    rw [List.cons_append, List.dropWhile_cons_of_pos hx]
    exact dropWhile_append_all l2 (fun c hc => h c (List.mem_cons_of_mem _ hc))

/-- `dropWhile` leaves a string whose head does not match untouched. -/
theorem dropWhile_eq_self_of_head {p : Char → Bool} {l : Str}
    (h : ∀ c, l.head? = some c → p c = false) : l.dropWhile p = l := by
  cases l with
  | nil => rfl
  | cons x xs =>
    apply List.dropWhile_cons_of_neg
    simp [h x rfl]

/-- A string whose first and last characters are not whitespace is its own
trim. -/
theorem jsTrim_eq_self {l : Str}
    (hh : ∀ c, l.head? = some c → isWsJs c = false)
    (hl : ∀ c, l.getLast? = some c → isWsJs c = false) : jsTrim l = l := by
  unfold jsTrim
  rw [dropWhile_eq_self_of_head hh]
  rw [dropWhile_eq_self_of_head (by
    intro c hc
    rw [List.head?_reverse] at hc
    exact hl c hc)]
  exact List.reverse_reverse l

/-- A space-join starting from a nonempty string is nonempty. -/
theorem joinSpace_ne_nil {t : Str} (ts : List Str) (ht : t ≠ []) :
    joinSpace (t :: ts) ≠ [] := by
  cases ts with
  | nil => simpa [joinSpace] using ht
  | cons x xs =>
    cases t with
    | nil => exact absurd rfl ht
    | cons c cs => simp [joinSpace]

/-- The head of a space-join is the head of its first string. -/
theorem joinSpace_head? {t : Str} (ts : List Str) (ht : t ≠ []) :
    (joinSpace (t :: ts)).head? = t.head? := by
  cases ts with
  | nil => rfl
  | cons x xs =>
    have hstep : joinSpace (t :: x :: xs) = t ++ ' ' :: joinSpace (x :: xs) := rfl
    rw [hstep, List.head?_append_of_ne_nil t ht]

/-- The last character of a space-join of nonempty strings is the last
character of its last string. -/
theorem joinSpace_getLast? (ts : List Str) :
    ∀ (t : Str), (∀ u ∈ t :: ts, u ≠ []) →
      ∃ tl, (t :: ts).getLast? = some tl ∧
        (joinSpace (t :: ts)).getLast? = tl.getLast? := by
  induction ts with
  | nil =>
    intro t _
    exact ⟨t, rfl, rfl⟩
  | cons x xs ih =>
    intro t h
    obtain ⟨tl, h1, h2⟩ := ih x (fun u hu => h u (List.mem_cons_of_mem _ hu))
    have hxne : x ≠ [] := h x (List.mem_cons_of_mem _ (List.mem_cons_self x xs))
    have hJ : joinSpace (x :: xs) ≠ [] := joinSpace_ne_nil xs hxne
    refine ⟨tl, ?_, ?_⟩
    · rw [List.getLast?_cons_cons]
      exact h1
    · have hstep : joinSpace (t :: x :: xs) = t ++ ' ' :: joinSpace (x :: xs) := rfl
      rw [hstep, List.getLast?_append_cons]
      have : (' ' :: joinSpace (x :: xs)) = [' '] ++ joinSpace (x :: xs) := rfl
      rw [this, List.getLast?_append_of_ne_nil [' '] hJ]
      exact h2

/-- Under the schema guarantees (nonempty, whitespace-free hashtags) the
space-join is already trimmed and nonempty. -/
theorem jsTrim_joinSpace {t : Str} (ts : List Str)
    (h : ∀ u ∈ t :: ts, u ≠ [] ∧ ∀ c ∈ u, isWsJs c = false) :
    jsTrim (joinSpace (t :: ts)) = joinSpace (t :: ts) ∧ joinSpace (t :: ts) ≠ [] := by
  have hne : t ≠ [] := (h t (List.mem_cons_self t ts)).1
  refine ⟨?_, joinSpace_ne_nil ts hne⟩
  apply jsTrim_eq_self
  · intro c hc
    rw [joinSpace_head? ts hne] at hc
    exact (h t (List.mem_cons_self t ts)).2 c (List.mem_of_mem_head? hc)
  · intro c hc
    obtain ⟨tl, h1, h2⟩ := joinSpace_getLast? ts t (fun u hu => (h u hu).1)
    rw [h2] at hc
    have htl : tl ∈ t :: ts := List.mem_of_mem_getLast? h1
    exact (h tl htl).2 c (List.mem_of_mem_getLast? hc)

end JoinTrimLemmas

section Claims

/-- Claim C2: for every request-body value of `count` and `hashCount` —
negative, zero, fractional, non-numeric (modelled by `none`, the `NaN`
coercion) or absent (the destructuring default `8`, i.e. `some 8`) — the
normalizer's clamp `max(lo, min(hi, Number(x) || d))` lands inside each
variant's declared bounds: captions in `[2,6]` (second variant) and
`[2,8]` (edge variant), hashtags in `[6,12]` in both; the clamp is a
total function, modelling that normalization never throws. -/
theorem c2_clamp_bounds (c h : Option ℚ) :
    (2 ≤ v2ClampN c ∧ v2ClampN c ≤ 6) ∧
    (6 ≤ v2ClampHN h ∧ v2ClampHN h ≤ 12) ∧
    (2 ≤ edgeClampN c ∧ edgeClampN c ≤ 8) ∧
    (6 ≤ edgeClampHN h ∧ edgeClampHN h ≤ 12) := by
  unfold v2ClampN v2ClampHN edgeClampN edgeClampHN
  refine ⟨⟨le_max_left _ _, ?_⟩, ⟨le_max_left _ _, ?_⟩,
    ⟨le_max_left _ _, ?_⟩, ⟨le_max_left _ _, ?_⟩⟩ <;>
    exact max_le (by norm_num) (min_le_left _ _)

/-- Claim C10: `safeParseJSON` is total and always yields an object-like
value (`typeof === "object"` and non-null, i.e. an object or an array),
and its result is fully characterized: when the extracted input parses
to an object-like value it returns exactly that parsed value, and in
every other case — the parse result is not object-like, or parsing
fails — it returns the empty object. -/
theorem c10_safeparse_total (s : Str) :
    jsObjLike (safeParseJSON s) = true ∧
    (∀ v, jsonParse (extractedInput s) = some v → jsObjLike v = true →
      safeParseJSON s = v) ∧
    (∀ v, jsonParse (extractedInput s) = some v → jsObjLike v = false →
      safeParseJSON s = JSVal.jobj []) ∧
    (jsonParse (extractedInput s) = none → safeParseJSON s = JSVal.jobj []) := by
  rcases hp : jsonParse (extractedInput s) with _ | v
  · have hred : safeParseJSON s = JSVal.jobj [] := by
      simp only [safeParseJSON, hp]
    refine ⟨by rw [hred]; rfl, ?_, fun _ _ _ => hred, fun _ => hred⟩
    intro v2 hv2 _
    exact Option.noConfusion hv2
  · by_cases hv : jsObjLike v = true
    · have hred : safeParseJSON s = v := by
        simp only [safeParseJSON, hp, if_pos hv]
      refine ⟨by rw [hred]; exact hv, ?_, ?_, ?_⟩
      · intro v2 hv2 _
        injection hv2 with hveq
        rw [hred, hveq]
      · intro v2 hv2 hobj2
        injection hv2 with hveq
        rw [hveq] at hv
        rw [hv] at hobj2
        exact Bool.noConfusion hobj2
      · intro hnone
        exact Option.noConfusion hnone
    · have hred : safeParseJSON s = JSVal.jobj [] := by
        simp only [safeParseJSON, hp, if_neg hv]
      refine ⟨by rw [hred]; rfl, ?_, fun _ _ _ => hred, fun _ => hred⟩
      intro v2 hv2 hobj2
      injection hv2 with hveq
      rw [← hveq] at hobj2
      exact absurd hobj2 hv

/-- Witness for C10: a concrete completion whose extracted input parses
to a non-null object, returned verbatim by `safeParseJSON`. -/
theorem c10_safeparse_witness :
    (jsonParse (extractedInput (("\x7b\"a\":\"b\"\x7d").data))
      = some (JSVal.jobj [(("a").data, JSVal.jstr ("b").data)]) ∧
      jsObjLike (JSVal.jobj [(("a").data, JSVal.jstr ("b").data)]) = true) ∧
    safeParseJSON (("\x7b\"a\":\"b\"\x7d").data)
      = JSVal.jobj [(("a").data, JSVal.jstr ("b").data)] :=
  ⟨⟨rfl, rfl⟩,
    (c10_safeparse_total (("\x7b\"a\":\"b\"\x7d").data)).2.1
      (JSVal.jobj [(("a").data, JSVal.jstr ("b").data)]) rfl rfl⟩

/-- Claim C5 counterexample: with `OPENAI_MODEL` configured to a model
different from the hard-coded fallback model, a failing first upstream
call triggers an automatic second upstream call — a retry — and the
error is not propagated: two generation calls occur in one request. -/
theorem c5_retry_counterexample :
    (v1CallUpstream (some ("gpt-4".data)) (.err ("boom".data)) (.ok ("x".data))).2 = 2 ∧
    ¬ ((v1CallUpstream (some ("gpt-4".data)) (.err ("boom".data)) (.ok ("x".data))).2 ≤ 1) ∧
    (v1CallUpstream (some ("gpt-4".data)) (.err ("boom".data)) (.ok ("x".data))).1
      = CallResult.ok ("x".data) := by
  refine ⟨rfl, ?_, rfl⟩
  decide

/-- Claim C5 (amended): in the default configuration — the primary model
equal to the hard-coded fallback model — the first variant makes exactly
one upstream generation call and propagates the failure to its caller;
in general at most two calls occur, because on failure this variant
retries once with the fallback configuration whenever the configured
primary model differs from the fallback model. -/
theorem c5_single_call_amended (env : Option Str) (e : Str) (second : CallResult)
    (hdef : modelPrimary env = MODEL_FALLBACK) :
    v1CallUpstream env (.err e) second = (CallResult.err e, 1) ∧
    ∀ (f s2 : CallResult), (v1CallUpstream env f s2).2 ≤ 2 := by
  constructor
  · have hred : v1CallUpstream env (.err e) second =
        if modelPrimary env ≠ MODEL_FALLBACK then (second, 2) else (CallResult.err e, 1) := rfl
    rw [hred, if_neg (by simp [hdef])]
  · intro f s2
    cases f with
    | ok c =>
      have hred : v1CallUpstream env (.ok c) s2 = (CallResult.ok c, 1) := rfl
      rw [hred]
      norm_num
    | err e2 =>
      have hred : v1CallUpstream env (.err e2) s2 =
          if modelPrimary env ≠ MODEL_FALLBACK then (s2, 2) else (CallResult.err e2, 1) := rfl
      rw [hred]
      by_cases hne : modelPrimary env ≠ MODEL_FALLBACK
      · rw [if_pos hne]
      · rw [if_neg hne]
        norm_num

/-- Witness for the amended C5 at the default environment. -/
theorem c5_single_call_witness :
    modelPrimary none = MODEL_FALLBACK ∧
    v1CallUpstream none (.err ("boom".data)) (.ok ("x".data))
      = (CallResult.err ("boom".data), 1) :=
  ⟨rfl, (c5_single_call_amended none ("boom".data) (.ok ("x".data)) rfl).1⟩

/-- Claim C8 counterexample: a `benefits`/`pains` string containing the
documented `;` delimiter is not split: `asArr` wraps the whole string as
a one-element array, and the edge variant's coercion discards it. -/
theorem c8_no_split_counterexample :
    asArr (.str ("affordable;sturdy".data)) = [("affordable;sturdy".data)] ∧
    asArr (.str ("affordable;sturdy".data)) ≠ [("affordable".data), ("sturdy".data)] ∧
    edgeArr (.str ("affordable;sturdy".data)) = [] := by
  refine ⟨rfl, ?_, rfl⟩
  decide

/-- Claim C8 (amended): an array field arriving as a string is never
split on `;` or `,`: the second variant's `asArr` wraps a nonempty
string as the singleton array containing it (and maps the empty string
to `[]`), while the edge variant replaces every non-array by `[]`. -/
theorem c8_asarr_amended (s : Str) (hs : s ≠ []) :
    asArr (.str s) = [s] ∧ edgeArr (.str s) = [] ∧ asArr (.str []) = [] := by
  refine ⟨?_, rfl, rfl⟩
  have hred : asArr (.str s) = if s = [] then [] else [s] := rfl
  rw [hred, if_neg hs]

/-- Witness for the amended C8 at a concrete delimiter-carrying string. -/
theorem c8_asarr_witness :
    (("a;b".data : Str) ≠ []) ∧ asArr (.str ("a;b".data)) = [("a;b".data)] :=
  ⟨by decide, (c8_asarr_amended ("a;b".data) (by decide)).1⟩

/-- Claim C7 counterexample: a parsed hashtag list with a single entry is
curated to a single entry — no padding from any candidate pool brings it
up to the documented floor of 12. -/
theorem c7_no_padding_counterexample :
    v1CurateTags [("a".data)] = [("a".data)] ∧
    (v1CurateTags [("a".data)]).length = 1 ∧
    ¬ (12 ≤ (v1CurateTags [("a".data)]).length) := by
  refine ⟨rfl, rfl, ?_⟩
  decide

/-- Claim C7 (amended): the curators only cap the hashtag list — at the
fixed ceiling 16 in the first variant and at the clamped `HN` in the
second/edge variants — and never pad it: the curated list never has more
entries than the parsed input, so no minimum floor is enforced. -/
theorem c7_cap_no_pad_amended :
    (∀ l : List Str, (v1CurateTags l).length ≤ 16 ∧ (v1CurateTags l).length ≤ l.length) ∧
    (∀ (hn : Nat) (xs : List JSVal),
      (v2CurateList hn xs).length ≤ hn ∧ (v2CurateList hn xs).length ≤ xs.length) := by
  constructor
  · intro l
    constructor
    · unfold v1CurateTags
      simp
    · unfold v1CurateTags
      rw [List.length_take]
      exact le_trans (min_le_right _ _) (dedupeTagsAux_length_le l [])
  · intro hn xs
    exact v2CurateList_length hn xs

/-- Claim C1 counterexample: the second variant's curation (also used by
the edge variant) keeps case-insensitive duplicate hashtags verbatim,
and no banned-word filtering exists anywhere: `dedupeTags` of the first
variant passes the spec's own example banned word `nsfw` straight
through. -/
theorem c1_duplicates_counterexample :
    v2CurateList 6 [JSVal.jstr ("#x".data), JSVal.jstr ("#x".data)]
      = [JSVal.jstr ("#x".data), JSVal.jstr ("#x".data)] ∧
    ¬ (v2CurateList 6 [JSVal.jstr ("#x".data), JSVal.jstr ("#x".data)]).Nodup ∧
    dedupeTags [("nsfw".data)] = [("nsfw".data)] := by
  have hred : v2CurateList 6 [JSVal.jstr ("#x".data), JSVal.jstr ("#x".data)]
      = [JSVal.jstr ("#x".data), JSVal.jstr ("#x".data)] := rfl
  refine ⟨hred, ?_, rfl⟩
  rw [hred]
  simp

/-- Claim C1 (amended): the length bounds hold — curated captions and
hashtags of the second/edge variants never exceed the clamped bound, and
the first variant caps captions at the fixed 5 and hashtags at the fixed
16 — and the first variant's `dedupeTags` is genuinely duplicate-free
(its outputs are pairwise-distinct canonical lowercased forms of the
inputs); but the second/edge variants do not deduplicate at all, and no
variant checks hashtags against a banned-word set. -/
theorem c1_curation_amended :
    (∀ (bound : Nat) (xs : List JSVal), (v2CurateList bound xs).length ≤ bound) ∧
    (∀ l : List Str, (dedupeTags l).Nodup ∧
      ∀ v ∈ dedupeTags l, v ≠ [] ∧ ∃ t ∈ l, v = canonTag t) ∧
    (∀ parsed : JSVal, (v1CurateCaps parsed).length ≤ 5) ∧
    (∀ l : List Str, (v1CurateTags l).length ≤ 16) := by
  refine ⟨?_, ?_, ?_, ?_⟩
  · intro bound xs
    exact (v2CurateList_length bound xs).1
  · intro l
    obtain ⟨h1, h2⟩ := dedupeTagsAux_spec l []
    exact ⟨h2, fun v hv => ⟨(h1 v hv).2.1, (h1 v hv).2.2⟩⟩
  · intro parsed
    unfold v1CurateCaps
    cases jsGet parsed ("captions".data) with
    | none => simp
    | some v =>
      cases v with
      | jarr xs => simp
      | jnull => simp
      | jbool b => simp
      | jnum q => simp
      | jstr s2 => simp
      | jobj fs => simp
  · intro l
    unfold v1CurateTags
    simp

/-- Claim C6 counterexample: the first variant synthesizes the missing
`combined` by joining the first caption and `#`-prefixed hashtags with a
space, not as the claimed `captions[0] + "\n" + hashtags.join(" ")`. -/
theorem c6_space_join_counterexample :
    v1Combined none [("a".data)] [("x".data)] = ("a #x".data) ∧
    ("a #x".data) ≠ ("a".data ++ '\n' :: joinSpace [("x".data)]) := by
  refine ⟨rfl, ?_⟩
  decide

/-- Claim C6 (amended): when the parsed completion lacks `combined` and
has at least one caption, the second and edge variants synthesize
`captions[0] + "\n" + hashtags.join(" ")` whenever there are hashtags
(here under the schema guarantee of nonempty whitespace-free tags, which
makes the joined line survive its trim), and `captions[0]` alone — with
no newline — when the hashtag list is empty; the first variant instead
produces `captions[0] + " " + hashtags.map(t => "#" + t).join(" ")`. -/
theorem c6_combined_amended (c0 : Str) (cs : List Str) (t0 : Str) (ts : List Str)
    (hc0 : c0 ≠ [])
    (htags : ∀ u ∈ t0 :: ts, u ≠ [] ∧ ∀ c ∈ u, isWsJs c = false) :
    v2Combined none (c0 :: cs) (t0 :: ts) = c0 ++ '\n' :: joinSpace (t0 :: ts) ∧
    v2Combined none (c0 :: cs) [] = c0 ∧
    v1Combined none (c0 :: cs) (t0 :: ts)
      = c0 ++ ' ' :: joinSpace ((t0 :: ts).map (fun t => '#' :: t)) := by
  obtain ⟨hline, hne⟩ := jsTrim_joinSpace ts htags
  refine ⟨?_, rfl, ?_⟩
  · have hred : v2Combined none (c0 :: cs) (t0 :: ts) =
        (if jsTrim (joinSpace (t0 :: ts)) = [] then c0
         else c0 ++ '\n' :: jsTrim (joinSpace (t0 :: ts))) := rfl
    rw [hred, if_neg (by rw [hline]; exact hne), hline]
  · have hred : v1Combined none (c0 :: cs) (t0 :: ts) =
        jsOr c0 ("Here’s the gist.".data)
          ++ ' ' :: joinSpace ((t0 :: ts).map (fun t => '#' :: t)) := rfl
    rw [hred]
    unfold jsOr
    rw [if_neg hc0]

/-- Witness for the amended C6 at concrete captions and hashtags. -/
theorem c6_combined_witness :
    ((("a".data : Str) ≠ []) ∧
      (∀ u ∈ [("x".data), ("y".data)], u ≠ [] ∧ ∀ c ∈ u, isWsJs c = false)) ∧
    v2Combined none [("a".data)] [("x".data), ("y".data)]
      = ("a".data ++ '\n' :: joinSpace [("x".data), ("y".data)]) :=
  ⟨⟨by decide, by decide⟩,
    (c6_combined_amended ("a".data) [] ("x".data) [("y".data)] (by decide) (by decide)).1⟩

/-- Claim C4: when the upstream call returns a non-success HTTP status or
throws (network failure, or the cancellation timer aborting the fetch),
the second variant still answers HTTP 200 with a body spread from the
fallback generator's output (tagged `fallback` / `fallback-timeout`),
and that output is well-formed — exactly `N` captions, at most `HN`
hashtags — computed by a pure local function, modelling that this path
performs no network call and always succeeds; the edge variant has no
fallback generator and instead answers HTTP 500 with the structured
`{ error, detail }` body. -/
theorem c4_fallback_on_failure (rs : Nat → ℚ) (product audience : Str)
    (benefits pains : JSField) (N HN k : Nat) (detail msg : Str) :
    (v2HandleOutcome rs product audience benefits pains N HN k (.httpError detail)
      = { status := 200,
          body := fbBody (fallbackGenerate rs product audience benefits pains N HN k).1
            ("fallback".data) }) ∧
    (v2HandleOutcome rs product audience benefits pains N HN k (.netFail msg)
      = { status := 200,
          body := fbBody (fallbackGenerate rs product audience benefits pains N HN k).1
            ("fallback-timeout".data) }) ∧
    (fallbackGenerate rs product audience benefits pains N HN k).1.captions.length = N ∧
    (fallbackGenerate rs product audience benefits pains N HN k).1.hashtags.length ≤ HN ∧
    (edgeHandleOutcome N HN (.httpError detail)
      = { status := 500, body := .failure ("OpenAI request failed".data) detail }) ∧
    (edgeHandleOutcome N HN (.netFail msg)
      = { status := 500, body := .failure ("Server error".data) msg }) := by
  obtain ⟨h1, _, _, h4, _, _⟩ :=
    fallbackGenerate_spec rs product audience benefits pains N HN k
  exact ⟨rfl, rfl, h1, h4, rfl, rfl⟩

/-- Claim C9: for every brief, every random stream, and clamped counts
with `N ≥ 1`, `fallbackGenerate` returns exactly `N` nonempty captions;
a nonempty `combined` equal to the first caption followed by a newline
and the space-joined hashtag line; and at most `HN` pairwise-distinct
hashtags, each consisting of `#` followed by a nonempty lowercase
alphanumeric token. -/
theorem c9_fallback_wellformed (rs : Nat → ℚ) (product audience : Str)
    (benefits pains : JSField) (N HN k : Nat) (hN : 1 ≤ N) :
    (fallbackGenerate rs product audience benefits pains N HN k).1.captions.length = N ∧
    (∀ cap ∈ (fallbackGenerate rs product audience benefits pains N HN k).1.captions,
      cap ≠ []) ∧
    (∃ c0 cs, (fallbackGenerate rs product audience benefits pains N HN k).1.captions
        = c0 :: cs ∧
      (fallbackGenerate rs product audience benefits pains N HN k).1.combined
        = c0 ++ '\n' :: joinSpace
            (fallbackGenerate rs product audience benefits pains N HN k).1.hashtags) ∧
    (fallbackGenerate rs product audience benefits pains N HN k).1.combined ≠ [] ∧
    (fallbackGenerate rs product audience benefits pains N HN k).1.hashtags.length ≤ HN ∧
    (fallbackGenerate rs product audience benefits pains N HN k).1.hashtags.Nodup ∧
    (∀ t ∈ (fallbackGenerate rs product audience benefits pains N HN k).1.hashtags,
      ∃ w, t = '#' :: w ∧ w ≠ [] ∧ ∀ c ∈ w, isLowerAlnum c = true) := by
  obtain ⟨h1, h2, h3, h4, h5, h6⟩ :=
    fallbackGenerate_spec rs product audience benefits pains N HN k
  have hcs : ∃ c0 cs,
      (fallbackGenerate rs product audience benefits pains N HN k).1.captions = c0 :: cs := by
    cases hcap : (fallbackGenerate rs product audience benefits pains N HN k).1.captions with
    | nil =>
      rw [hcap] at h1
      simp at h1
      omega
    | cons a b => exact ⟨a, b, rfl⟩
  obtain ⟨c0, cs, hc⟩ := hcs
  have hhead : (fallbackGenerate rs product audience benefits pains N HN k).1.captions.head?
      = some c0 := by rw [hc]; rfl
  have hcomb : (fallbackGenerate rs product audience benefits pains N HN k).1.combined
      = c0 ++ '\n' :: joinSpace
          (fallbackGenerate rs product audience benefits pains N HN k).1.hashtags := by
    rw [h3, hhead]
    rfl
  refine ⟨h1, h2, ⟨c0, cs, hc, hcomb⟩, ?_, h4, h5, h6⟩
  rw [hcomb]
  simp

/-- Witness for C9 on a concrete brief with the clamped counts 2 and 6. -/
theorem c9_fallback_witness :
    1 ≤ 2 ∧
    (fallbackGenerate (fun _ => 0) ("p".data) ("aud".data)
      JSField.undef JSField.undef 2 6 0).1.captions.length = 2 :=
  ⟨by norm_num,
    (c9_fallback_wellformed (fun _ => 0) ("p".data) ("aud".data)
      JSField.undef JSField.undef 2 6 0 (by norm_num)).1⟩

/-- Claim C3 counterexample: a completion wrapping a syntactically
complete `\x7b...\x7d` block but followed by trailing commentary defeats the
end-anchored regex of `safeParseJSON`: the embedded block parses fine on
its own, yet the curated result degrades to the empty object instead of
the embedded object. -/
theorem c3_trailing_commentary_counterexample :
    jsonParse (("\x7b\"captions\":[]\x7d").data)
      = some (JSVal.jobj [(("captions").data, JSVal.jarr [])]) ∧
    safeParseJSON (("\x7b\"captions\":[]\x7d hope this helps!").data) = JSVal.jobj [] ∧
    JSVal.jobj ([] : List (Str × JSVal))
      ≠ JSVal.jobj [(("captions").data, JSVal.jarr [])] := by
  refine ⟨rfl, rfl, ?_⟩
  intro h
  injection h with h1
  exact List.noConfusion h1

/-- Claim C3 (amended): extraction succeeds exactly when the complete
block terminates the completion — for any prose prefix without a brace
followed by a parseable object block ending the string, `safeParseJSON`
returns the embedded object; the `generate.js` salvage additionally
tolerates a trailing code fence after the block (`rescueJSON`); and when
the extracted input does not parse, `safeParseJSON` degrades to the
empty object (empty captions/hashtags) instead of surfacing an error. -/
theorem c3_extraction_amended (prose block : Str) (v : JSVal)
    (hp : '{' ∉ prose) (hh : block.head? = some '{')
    (hl : block.getLast? = some '}')
    (hv : jsonParse block = some v) (hobj : jsObjLike v = true) :
    safeParseJSON (prose ++ block) = v ∧
    rescueJSON (("```json\n\x7b\"list\":[]\x7d\n```").data)
      = some (JSVal.jobj [(("list").data, JSVal.jarr [])]) ∧
    (∀ s : Str, jsonParse (extractedInput s) = none →
      safeParseJSON s = JSVal.jobj []) := by
  refine ⟨?_, rfl, ?_⟩
  · obtain ⟨bs, rfl⟩ : ∃ bs, block = '{' :: bs := by
      cases block with
      | nil => exact absurd hh (by simp)
      | cons b bs =>
        injection hh with hb
        exact ⟨bs, by rw [hb]⟩
    have hbne : ('{' :: bs : Str) ≠ [] := by simp
    have glast : (prose ++ '{' :: bs).getLast? = some '}' := by
      rw [List.getLast?_append_of_ne_nil prose hbne]
      exact hl
    have gmem : '{' ∈ prose ++ '{' :: bs :=
      List.mem_append_right _ (List.mem_cons_self _ _)
    have hmatch : matchBraceToEnd (prose ++ '{' :: bs) = some ('{' :: bs) := by
      unfold matchBraceToEnd
      rw [if_pos (by simp [glast, gmem])]
      congr 1
      have hdrop1 : (prose ++ '{' :: bs).dropWhile (fun c => c ≠ '{')
          = ('{' :: bs).dropWhile (fun c => c ≠ '{') := by
        apply dropWhile_append_all
        intro c hc
        simp only [decide_eq_true_eq]
        intro hceq
        exact hp (hceq ▸ hc)
      rw [hdrop1]
      apply List.dropWhile_cons_of_neg
      simp
    have hextract : extractedInput (prose ++ '{' :: bs) = '{' :: bs := by
      unfold extractedInput
      rw [hmatch]
      rfl
    unfold safeParseJSON
    rw [hextract, hv]
    simp only [hobj, if_true]
  · intro s hnone
    simp only [safeParseJSON, hnone]

/-- Witness for the amended C3: leading prose around a complete block,
with the block terminating the string. -/
theorem c3_extraction_witness :
    ('{' ∉ ("Sure! Here you go: ").data) ∧
    safeParseJSON (("Sure! Here you go: ").data ++ ("\x7b\"a\":\"b\"\x7d").data)
      = JSVal.jobj [(("a").data, JSVal.jstr ("b").data)] :=
  ⟨by decide,
    (c3_extraction_amended (("Sure! Here you go: ").data) (("\x7b\"a\":\"b\"\x7d").data)
      (JSVal.jobj [(("a").data, JSVal.jstr ("b").data)])
      (by decide) rfl rfl rfl rfl).1⟩

end Claims
